import Mathlib

/-
Verification of the inb4404 thread-watcher core against its source.

Python strings are sequences of Unicode code points; we model them as
`List Char`.  The SQLite `hashes` table is modelled as a list of rows with
`md5` as primary key.  File systems are modelled as finite sets of paths.
Standard-library black boxes that the spec declares out of scope
(`html.unescape`, `base64.b64decode(...).hex()`, BeautifulSoup title
extraction, the HTML attachment-regex pipeline) are passed in as function
parameters.
-/

/-- Python strings as sequences of code points. -/
abbrev PyStr := List Char

/-- Literal helper: a Lean string literal as a `PyStr`. -/
def pyStr (s : String) : PyStr := s.toList

/-- Whitespace recognised by Python's `str.strip()` (ASCII scope). -/
def isPySpace (c : Char) : Bool :=
  c = ' ' || c = '\t' || c = '\n' || c = '\r' || c = '\x0b' || c = '\x0c'

/-- Models Python `s.strip()`: remove leading and trailing whitespace. -/
def pyStrip (s : PyStr) : PyStr :=
  ((s.dropWhile isPySpace).reverse.dropWhile isPySpace).reverse

/-- Models Python `s.split(sep)` for a one-character separator: the result is
never empty, and splitting the empty string yields `[[]]`. -/
def splitOnChar (sep : Char) : PyStr → List PyStr
  | [] => [[]]
  | c :: rest =>
    match splitOnChar sep rest with
    | [] => [[]]
    | p :: ps => if c = sep then [] :: p :: ps else (c :: p) :: ps

/-- Models `os.path.basename`: the part after the last slash. -/
def basenameOf (s : PyStr) : PyStr := (splitOnChar '/' s).getLastD []

/-- Models `os.path.dirname` (POSIX): the part up to the last slash, with
trailing slashes stripped unless the head is all slashes. -/
def dirnameOf (s : PyStr) : PyStr :=
  let revTail := s.reverse.takeWhile (fun c => c ≠ '/')
  let head := s.take (s.length - revTail.length)
  if head.isEmpty then []
  else if head.all (fun c => c = '/') then head
  else (head.reverse.dropWhile (fun c => c = '/')).reverse

/-- Models `os.path.join dir name` for the shapes arising here (`name` is a
relative filename; absolute `name` replaces `dir`). -/
def pathJoin (dir name : PyStr) : PyStr :=
  if name.headD ' ' = '/' then name
  else if dir.isEmpty then name
  else if dir.getLastD ' ' = '/' then dir ++ name
  else dir ++ '/' :: name

/-- Models the extension part of `os.path.splitext`: the suffix from the last
dot of the basename, ignoring the basename's leading dots. -/
def splitextExt (s : PyStr) : PyStr :=
  let b := basenameOf s
  let k := (b.takeWhile (fun c => c = '.')).length
  let rest := b.drop k
  if rest.contains '.' then '.' :: (splitOnChar '.' rest).getLastD []
  else []

/-- Models `re.sub(r'^[0-9]+(?:[._\-]+)?', '', base)` from
`ThreadWatcher._determine_file_path`: strip a leading run of digits and an
optional following run of `.`/`_`/`-`. -/
def stripServerPrefix (b : PyStr) : PyStr :=
  let ds := b.dropWhile Char.isDigit
  if ds.length = b.length then b
  else ds.dropWhile (fun c => c = '.' || c = '_' || c = '-')

/-- Models `re` word characters `\w` (ASCII scope). -/
def isPyWordChar (c : Char) : Bool := c.isAlphanum || c = '_'

/-- Characters kept by the sanitizing regex `[-\w.\s]`. -/
def sanitizeKeep (c : Char) : Bool :=
  c = '-' || isPyWordChar c || c = '.' || isPySpace c

/-- The space-to-underscore replacement of the sanitizer. -/
def sanitizeMap (c : Char) : Char := if c = ' ' then '_' else c

/-- Models `FileManager.sanitize_filename` (file_utils.py, the branch without
the optional django dependency): strip, drop characters outside
`[-\w.\s]`, replace spaces with underscores, fall back to `"file"` when
empty. -/
def sanitize_filename (s : PyStr) : PyStr :=
  if (((pyStrip s).filter sanitizeKeep).map sanitizeMap).isEmpty then pyStr "file"
  else ((pyStrip s).filter sanitizeKeep).map sanitizeMap

/-- Decimal rendering of a natural number, for HTTP status codes in error
messages. -/
def natToPyStr (n : Nat) : PyStr := (toString n).toList

/-- Python truthiness of an optional string: `None` and `""` are falsy. -/
def truthy (o : Option PyStr) : Bool :=
  match o with
  | none => false
  | some s => !s.isEmpty

/- ===================== database.py : HashDB ===================== -/

/-- One row of the `hashes` table
(`md5 TEXT PRIMARY KEY, path TEXT, thread TEXT, ts INTEGER, mtime INTEGER,
size INTEGER`). -/
structure DBRow where
  md5 : PyStr
  path : PyStr
  thread : PyStr
  ts : Int
  mtime : Int
  size : Int
deriving DecidableEq

/-- The `hashes` table. -/
abbrev DB := List DBRow

/-- Models `SELECT path FROM hashes WHERE md5=?` followed by `fetchone`. -/
def dbGetPath (db : DB) (h : PyStr) : Option PyStr :=
  (db.find? (fun r => r.md5 = h)).map (fun r => r.path)

/-- Models `SELECT md5, mtime, size FROM hashes WHERE path=?` followed by
`fetchone`. -/
def dbGetFileMetadata (db : DB) (p : PyStr) : Option (PyStr × Int × Int) :=
  (db.find? (fun r => r.path = p)).map (fun r => (r.md5, r.mtime, r.size))

/-- Models `INSERT OR IGNORE INTO hashes ... VALUES (?,?,?,?,?,?)`: a row with
a conflicting primary key leaves the table unchanged. -/
def dbInsert (db : DB) (h p t : PyStr) (ts mtime size : Int) : DB :=
  if (db.find? (fun r => r.md5 = h)).isSome then db
  else db ++ [⟨h, p, t, ts, mtime, size⟩]

/-- Models `INSERT OR REPLACE INTO hashes ... VALUES (?,?,?,?,?,?)`: a
conflicting row is deleted, then the new row is inserted. -/
def dbUpsert (db : DB) (h p t : PyStr) (ts mtime size : Int) : DB :=
  (db.filter (fun r => !(r.md5 = h : Bool))) ++ [⟨h, p, t, ts, mtime, size⟩]

/-- Models `DELETE FROM hashes WHERE path=?`. -/
def dbDeleteByPath (db : DB) (p : PyStr) : DB :=
  db.filter (fun r => !(r.path = p : Bool))

/-- Models `SELECT md5 FROM hashes WHERE thread=?` and the comprehension
`{r[0] for r in rows if r and r[0]}` (empty digests are dropped). -/
def dbThreadHashes (db : DB) (t : PyStr) : Finset PyStr :=
  (((db.filter (fun r => r.thread = t)).map (fun r => r.md5)).filter
    (fun m => !m.isEmpty)).toFinset

/-- Models `SELECT COUNT(*) FROM hashes`. -/
def dbCount (db : DB) : Nat := db.length

/-
Every public method of `HashDB` (database.py) wraps its body in
`try: ... except Exception: <default>`; `_get_connection` turns any sqlite
failure (locked file, unreadable database, ...) into a `DatabaseError`, which
that handler catches.  We expose each method with an explicit `fail` flag:
`fail = true` means the storage operation raised.
-/

namespace HashDB

/-- Models `HashDB.get_path`: `except Exception: return None`. -/
def get_path (fail : Bool) (db : DB) (h : PyStr) : Option PyStr :=
  if fail then none else dbGetPath db h

/-- Models `HashDB.get_file_metadata`: `except Exception: return None`. -/
def get_file_metadata (fail : Bool) (db : DB) (p : PyStr) :
    Option (PyStr × Int × Int) :=
  if fail then none else dbGetFileMetadata db p

/-- Models `HashDB.has_hash`: `return self.get_path(md5) is not None`; it has
no handler of its own and inherits `get_path`'s. -/
def has_hash (fail : Bool) (db : DB) (h : PyStr) : Bool :=
  (get_path fail db h).isSome

/-- Models `HashDB.insert`: on failure the exception is logged and the table
is left unchanged. -/
def insert (fail : Bool) (db : DB) (h p t : PyStr) (now mtime size : Int) : DB :=
  if fail then db else dbInsert db h p t now mtime size

/-- Models `HashDB.upsert`: on failure the exception is logged and the table
is left unchanged. -/
def upsert (fail : Bool) (db : DB) (h p t : PyStr) (now mtime size : Int) : DB :=
  if fail then db else dbUpsert db h p t now mtime size

/-- Models `HashDB.delete_file_metadata`: on failure the exception is logged
and the table is left unchanged. -/
def delete_file_metadata (fail : Bool) (db : DB) (p : PyStr) : DB :=
  if fail then db else dbDeleteByPath db p

/-- Models `HashDB.get_thread_hashes`: `except Exception: return set()`. -/
def get_thread_hashes (fail : Bool) (db : DB) (t : PyStr) : Finset PyStr :=
  if fail then ∅ else dbThreadHashes db t

/-- Models `HashDB.count_hashes`: `except Exception: return 0`. -/
def count_hashes (fail : Bool) (db : DB) : Nat :=
  if fail then 0 else dbCount db

end HashDB

/- ===================== exceptions.py / http_client.py ===================== -/

/-- The exception classes of exceptions.py.  None of them declares any field
beyond the message — in particular `HTTPError` has no `code` attribute. -/
inductive AppError where
  | threadNotFound (msg : PyStr)
  | httpError (msg : PyStr)
  | downloadError (msg : PyStr)
  | databaseError (msg : PyStr)
deriving DecidableEq

/-- The exception class (signal kind) of an `AppError`: this is all a caller
can distinguish without parsing the message text. -/
inductive AppErrorKind where
  | notFound
  | http
  | download
  | database
deriving DecidableEq

/-- Class of an `AppError`. -/
def AppError.kind : AppError → AppErrorKind
  | .threadNotFound _ => .notFound
  | .httpError _ => .http
  | .downloadError _ => .download
  | .databaseError _ => .database

/-- Outcome of the underlying `urllib.request.urlopen` call. -/
inductive UrlOutcome where
  | success (body : PyStr)
  | httpErr (code : Nat) (msg : PyStr)
  | urlErr (msg : PyStr)
  | otherExc (msg : PyStr)
deriving DecidableEq

/-- Models `HTTPClient.fetch` (http_client.py): normalise protocol-relative
URLs, then classify the outcome — `urllib.error.HTTPError` with code 404
becomes `ThreadNotFoundError`, every other `urllib.error.HTTPError`, every
`urllib.error.URLError` and every other exception becomes the message-only
`inb4404.exceptions.HTTPError`. -/
def HTTPClient.fetch (url : PyStr) (result : UrlOutcome) : Except AppError PyStr :=
  let u := if (pyStr "//").isPrefixOf url then pyStr "https:" ++ url else url
  match result with
  | .success b => .ok b
  | .httpErr c _ =>
    if c = 404 then .error (.threadNotFound (pyStr "Thread not found: " ++ u))
    else .error (.httpError (pyStr "HTTP error " ++ natToPyStr c ++ pyStr " for " ++ u))
  | .urlErr m => .error (.httpError (pyStr "URL error for " ++ u ++ pyStr ": " ++ m))
  | .otherExc m =>
    .error (.httpError (pyStr "Unexpected error fetching " ++ u ++ pyStr ": " ++ m))

/- ===================== thread_parser.py : ThreadURL ===================== -/

/-- Parsed thread URL (thread_parser.py). -/
structure ThreadURL where
  url : PyStr
  board : PyStr
  thread_id : PyStr
  slug : Option PyStr
deriving DecidableEq

/-- Models `ThreadURL.parse`: drop the `#` fragment, split on `/`, read the
board at index 3, the thread id at index 5 and the slug at index 6, with
`''`/`''`/`None` when the URL has fewer segments. -/
def ThreadURL.parse (url : PyStr) : ThreadURL :=
  let u := (splitOnChar '#' url).headD []
  let parts := splitOnChar '/' u
  { url := u
    board := parts.getD 3 []
    thread_id := parts.getD 5 []
    slug := if 6 < parts.length then some (parts.getD 6 []) else none }

/- ===================== thread_watcher.py : ThreadWatcher ===================== -/

/-- The command-line configuration fields consumed by the components under
verification (config.py `Config`); sleep intervals are modelled as
rationals. -/
structure Config where
  title : Bool
  origin_name : Bool
  use_names : Bool
  subject : Bool
  verbose : Bool
  with_counter : Bool
  new_dir : Bool
  reload : Bool
  throttle : ℚ
  backoff : ℚ
  refresh_time : ℚ
deriving DecidableEq

/-- A default configuration: every flag off, the config.py default
intervals. -/
def cfgDefault : Config :=
  { title := false, origin_name := false, use_names := false, subject := false
    verbose := false, with_counter := false, new_dir := false, reload := false
    throttle := 1/2, backoff := 1/2, refresh_time := 20 }

/-- A file entry as built by `_fetch_thread_data`: a Python tuple of up to
seven components `(link, img, api_md5_hex, api_md5_b64, original_name, tim,
ext)`, each possibly `None`; HTML-scraped entries are 2-tuples.  The numeric
`tim` is modelled by its decimal string. -/
abbrev EnumTuple := List (Option PyStr)

/-- Models the positional-length unpacking
`enum_tuple[i] if len(enum_tuple) >= i+1 else None`. -/
def tupleField (t : EnumTuple) (i : Nat) : Option PyStr := t.getD i none

/-- Mutable state of one `ThreadWatcher`: the in-memory per-thread hash set
`self.md5_hashes`, the shared `hashes.db` table, and the set of paths that
exist on disk. -/
structure WState where
  md5_hashes : Finset PyStr
  db : DB
  fs : Finset PyStr
deriving DecidableEq

/-- Result of `_process_file_entry`: the updated running count, whether the
byte-fetch of the entry's URL was performed, and the updated state. -/
structure ProcessResult where
  count : Nat
  fetched : Bool
  state : WState
deriving DecidableEq

/-- Models `ThreadWatcher._determine_file_path` (thread_watcher.py).  With
`--title`, use the metadata original name (plus extension) or the scraped
title when truthy; otherwise use the server filename, optionally
origin-name-stripped, with the fallback chain `basename(img)` →
`str(tim)+ext` → `"file"`.  The source annotates the result as optional but
every branch in fact produces a path. -/
def determineFilePath (cfg : Config) (dir : PyStr) (t : EnumTuple) (idx : Nat)
    (titles : List PyStr) : Option PyStr :=
  let img := tupleField t 1
  let original_name := tupleField t 4
  let tim := tupleField t 5
  let ext := tupleField t 6
  let titleName : Option PyStr :=
    if truthy original_name then
      let file_ext := if truthy ext then ext.getD [] else splitextExt (img.getD [])
      some (original_name.getD [] ++ file_ext)
    else if idx < titles.length then some (titles.getD idx [])
    else none
  if cfg.title && truthy titleName then
    some (pathJoin dir (sanitize_filename (titleName.getD [])))
  else
    let chosen : Option PyStr :=
      if cfg.origin_name then
        if truthy original_name then
          let file_ext := if truthy ext then ext.getD [] else splitextExt (img.getD [])
          some (original_name.getD [] ++ file_ext)
        else
          let stripped := stripServerPrefix (basenameOf (img.getD []))
          if !stripped.isEmpty then some stripped else img
      else img
    let safe : PyStr :=
      if truthy chosen then chosen.getD []
      else if truthy img then basenameOf (img.getD [])
      else if truthy tim then tim.getD [] ++ ext.getD []
      else pyStr "file"
    some (pathJoin dir safe)

/-- Models `ThreadWatcher._save_file` (thread_watcher.py lines 352-388).  The
source writes the bytes to `img_path`, adds the hash to the in-memory set,
and then calls `self.db.insert(data_hash, img_path, self.thread_id)` — but
`HashDB.insert` (database.py line 126) declares `mtime` and `size` as
required positional parameters without defaults, so under Python semantics
this call raises `TypeError: insert() missing 2 required positional
arguments` before any database write happens; the NEW-file log line and the
optional copy into `new/` are never reached.  The returned flag records that
the exception was raised. -/
def saveFile (st : WState) (imgPath dataHash : PyStr) : WState × Bool :=
  ({ md5_hashes := insert dataHash st.md5_hashes
     db := st.db
     fs := insert imgPath st.fs }, true)

/-- Models `ThreadWatcher._process_file_entry` (thread_watcher.py lines
272-350).  `fetchRes url` is the outcome of
`compute_hash_bytes(http_client.fetch(url))`: `none` when the download
raised (the handler logs and skips the entry), `some dataHash` otherwise.
The `TypeError` raised inside `_save_file` is caught by the same
`except Exception` handler, so on the save path the count is not
incremented. -/
def processFileEntry (cfg : Config) (dir : PyStr) (st : WState) (t : EnumTuple)
    (idx : Nat) (titles : List PyStr) (fetchRes : PyStr → Option PyStr)
    (count : Nat) : ProcessResult :=
  match determineFilePath cfg dir t idx titles with
  | none => ⟨count + 1, false, st⟩
  | some imgPath =>
    if imgPath ∈ st.fs then ⟨count + 1, false, st⟩
    else
      let link := tupleField t 0
      let api_md5_hex := tupleField t 2
      let download : ProcessResult :=
        if !truthy link then ⟨count + 1, false, st⟩
        else
          match fetchRes (link.getD []) with
          | none => ⟨count, true, st⟩
          | some dataHash =>
            if dataHash ∈ st.md5_hashes ∨ (dbGetPath st.db dataHash).isSome then
              ⟨count + 1, true, st⟩
            else
              ⟨count, true, (saveFile st imgPath dataHash).1⟩
      if truthy api_md5_hex then
        let h := api_md5_hex.getD []
        if (dbGetPath st.db h).isSome then ⟨count + 1, false, st⟩
        else if h ∈ st.md5_hashes then ⟨count + 1, false, st⟩
        else download
      else download

/-- One post of the 4chan JSON API thread document, restricted to the keys
the source reads; absent keys are `none` and the numeric `tim` is modelled
by its decimal string. -/
structure Post where
  tim : Option PyStr
  ext : Option PyStr
  md5 : Option PyStr
  filename : Option PyStr
  sub : Option PyStr
  com : Option PyStr
deriving DecidableEq

/-- A truthy thread JSON document.  `fetch_thread_api` returning `None` (any
failure) and a falsy (empty) document are both modelled as `none` at the use
sites. -/
structure ThreadJson where
  posts : List Post
deriving DecidableEq

/-- Lexicographic code-point comparison, Python `<=` on strings. -/
def pyStrLe : PyStr → PyStr → Bool
  | [], _ => true
  | _ :: _, [] => false
  | a :: as, b :: bs => if a = b then pyStrLe as bs else decide (a < b)

/-- Models the JSON branch of `_fetch_thread_data`: for every post carrying
`tim`, `ext` and `md5`, build the 7-tuple
`(file_url, filename, api_md5_hex, api_md5_b64, p.get('filename'), tim,
ext)`.  `b64hex` is the black-box `base64.b64decode(...).hex()`, returning
`none` when decoding raised. -/
def buildApiEntries (board : PyStr) (b64hex : PyStr → Option PyStr)
    (posts : List Post) : List EnumTuple :=
  posts.filterMap (fun p =>
    match p.tim, p.ext, p.md5 with
    | some tim, some ext, some m =>
      let filename := (if truthy p.filename then p.filename.getD [] else tim) ++ ext
      let file_url := pyStr "https://i.4cdn.org/" ++ board ++ '/' :: tim ++ ext
      some [some file_url, some filename, b64hex m, some m, p.filename,
            some tim, some ext]
    | _, _, _ => none)

/-- Models `ThreadWatcher._fetch_thread_data` (thread_watcher.py lines
151-200).  The JSON branch sorts the entries by their filename component.
On a falsy JSON document the source falls back to fetching the thread page;
`scrape` is the regex/`set`/`sorted` pipeline over the page markup and
`titlesOf` the optional BeautifulSoup title extraction, both black boxes
here.  Any exception from the page fetch — including an HTTP 429 — is
caught by the surrounding `except Exception`, which logs a warning and
returns `([], [])`; consequently this function never raises. -/
def fetchThreadData (cfg : Config) (board : PyStr) (api : Option ThreadJson)
    (b64hex : PyStr → Option PyStr) (page : Except AppError PyStr)
    (scrape : PyStr → List EnumTuple) (titlesOf : PyStr → List PyStr) :
    List EnumTuple × List PyStr :=
  match api with
  | some j =>
    ((buildApiEntries board b64hex j.posts).mergeSort
      (fun a b => pyStrLe ((tupleField a 1).getD []) ((tupleField b 1).getD [])),
     [])
  | none =>
    match page with
    | .ok body => (scrape body, if cfg.title then titlesOf body else [])
    | .error _ => ([], [])

/-- Mutable loop state of `ThreadWatcher.watch`: the throttle (the only
variable the 429 handler would adjust) and the per-thread core state. -/
structure WatchState where
  throttle : ℚ
  core : WState
deriving DecidableEq

/-- Sequential processing of the file-entry list by the poll loop
(`for enum_index, enum_tuple in enumerate(items)`). -/
def processEntries (cfg : Config) (dir : PyStr) (fetchRes : PyStr → Option PyStr)
    (titles : List PyStr) : List EnumTuple → Nat → Nat → WState → Nat × WState
  | [], _, count, st => (count, st)
  | t :: rest, idx, count, st =>
    let r := processFileEntry cfg dir st t idx titles fetchRes count
    processEntries cfg dir fetchRes titles rest (idx + 1) r.count r.state

/-- Models one iteration of the `while True` body of `ThreadWatcher.watch`
(thread_watcher.py lines 398-443).  Returns the new loop state and the
number of entries the iteration processed.  The `except HTTPError` handler —
the `throttle += backoff` 429 path and the 404 probe — and the
`except Exception` crash path are unreachable in the source:
`_fetch_thread_data` catches every exception internally (returning
`([], [])`) and `_process_file_entry` catches every per-entry exception, so
the body always reaches `time.sleep(self.config.refresh_time)` and the
throttle is never modified. -/
def watchIteration (cfg : Config) (board dir : PyStr) (api : Option ThreadJson)
    (b64hex : PyStr → Option PyStr) (page : Except AppError PyStr)
    (scrape : PyStr → List EnumTuple) (titlesOf : PyStr → List PyStr)
    (fetchRes : PyStr → Option PyStr) (ws : WatchState) : WatchState × Nat :=
  let fetched := fetchThreadData cfg board api b64hex page scrape titlesOf
  let run := processEntries cfg dir fetchRes fetched.2 fetched.1 0 1 ws.core
  ({ throttle := ws.throttle, core := run.2 }, fetched.1.length)

/- ===================== process_manager.py : ProcessManager ===================== -/

/-- Models `ProcessManager.load_queue`: the set of stripped lines that start
with `http` and do not start with `-http`. -/
def loadQueue (lines : List PyStr) : Finset PyStr :=
  ((lines.map pyStrip).filter
    (fun s => (pyStr "http").isPrefixOf s && !(pyStr "-http").isPrefixOf s)).toFinset

/-- Models the start step of one `ProcessManager.run` reconciliation pass:
`start_watcher` runs for exactly the desired links that are not already in
`running_processes`. -/
def startedLinks (desired running : Finset PyStr) : Finset PyStr :=
  desired.filter (fun l => l ∉ running)

/-- Models `ProcessManager._disable_link`: prefix `-` to every line whose
stripped content equals the link and which does not already start with `-`;
rewrite the file only when at least one line matched (`if disabled:`).
`none` means the file was not rewritten. -/
def disableLink (lines : List PyStr) (link : PyStr) : Option (List PyStr) :=
  if lines.any (fun l => (pyStrip l = link : Bool) && !(pyStr "-").isPrefixOf l) then
    some (lines.map (fun l =>
      if (pyStrip l = link : Bool) && !(pyStr "-").isPrefixOf l then '-' :: l else l))
  else none

/- ===================== deduplicator.py : Deduplicator ===================== -/

/-- One scan entry `(file_path, mtime, size)` as collected by
`Deduplicator.scan_directory`. -/
structure FileStat where
  path : PyStr
  mtime : Int
  size : Int
deriving DecidableEq

/-- State touched by `remove_duplicates`: the shared `hashes.db` table and the
set of paths existing on disk. -/
structure DState where
  db : DB
  fs : Finset PyStr
deriving DecidableEq

/-- Models `os.path.relpath(p, root)` in the case the path lies under `root`,
the only case arising in `Deduplicator` (every path comes from
`os.walk(self.downloads_root)`). -/
def relpathUnder (root p : PyStr) : PyStr :=
  if (root ++ pyStr "/").isPrefixOf p then p.drop (root.length + 1) else p

/-- Models the thread-name computation of `remove_duplicates`:
`os.path.dirname(os.path.relpath(kept_path, downloads_root))`; the
`replace(os.sep, '/')` is the identity in this POSIX path model. -/
def threadNameOf (root p : PyStr) : PyStr := dirnameOf (relpathUnder root p)

/-- Models `sorted(paths, key=lambda p: p[1])`: stable sort by modification
time ascending. -/
def sortByMtime (g : List FileStat) : List FileStat :=
  g.mergeSort (fun a b => decide (a.mtime ≤ b.mtime))

/-- Models the conditional index repair of `remove_duplicates`: upsert the
kept file under its hash unless the table already maps the hash to exactly
that path.  (The multi-path branch guards with
`if self.db.get_path(h) != kept_path:` and the single-path branch with the
negated `if self.db.get_path(h) == kept_path: ... continue` — the same

update either way.) -/
def groupDb (root : PyStr) (now : Int) (db : DB) (h : PyStr)
    (kept : FileStat) : DB :=
  if dbGetPath db h ≠ some kept.path then
    dbUpsert db h kept.path (threadNameOf root kept.path) now kept.mtime
      kept.size
  else db

/-- Models one step of the deletion loop of `remove_duplicates`:
`os.remove(d_path)` followed by `deleted_count += 1`, with a raising remove
logged and counted as nothing. -/
def removeStep (removeFails : PyStr → Bool) (acc : Finset PyStr × Nat)
    (d : FileStat) : Finset PyStr × Nat :=
  if removeFails d.path then acc else (acc.1.erase d.path, acc.2 + 1)

/-- Models the deletion loop of `remove_duplicates` over the duplicates of
one group. -/
def removalFold (removeFails : PyStr → Bool) (dups : List FileStat)
    (fs : Finset PyStr) : Finset PyStr × Nat :=
  dups.foldl (removeStep removeFails) (fs, 0)

/-- Models the body of `remove_duplicates` for one `(hash, paths)` group
(deduplicator.py lines 103-148).  `removeFails p = true` models `os.remove`
raising for `p` (the failure is logged, the deletion counter is not
incremented, the batch continues).  Returns the new state and the number of
files deleted for this group; the group always contributes exactly 1 to
`kept_count`.  An empty group would make `paths[0]` raise an uncaught
`IndexError`, modelled as `none`. -/
def processGroup (root : PyStr) (removeFails : PyStr → Bool) (now : Int)
    (st : DState) (h : PyStr) (grp : List FileStat) : Option (DState × Nat) :=
  if 1 < grp.length then
    match sortByMtime grp with
    | [] => none
    | kept :: dups =>
      some (⟨groupDb root now st.db h kept,
             (removalFold removeFails dups st.fs).1⟩,
            (removalFold removeFails dups st.fs).2)
  else
    match grp with
    | [] => none
    | kept :: _ => some (⟨groupDb root now st.db h kept, st.fs⟩, 0)

/-- Models `Deduplicator.remove_duplicates` (deduplicator.py lines 93-150):
process the hash groups in order, accumulating `kept_count` (one per group)
and `deleted_count` (successful deletions); an empty group propagates the
uncaught `IndexError`. -/
def removeDuplicates (root : PyStr) (removeFails : PyStr → Bool) (now : Int)
    (st : DState) : List (PyStr × List FileStat) → Option (DState × Nat × Nat)
  | [] => some (st, 0, 0)
  | (h, grp) :: rest =>
    match processGroup root removeFails now st h grp with
    | none => none
    | some (st1, del) =>
      match removeDuplicates root removeFails now st1 rest with
      | none => none
      | some (st2, kept, deleted) => some (st2, kept + 1, deleted + del)

/- ===================== thread_parser.py : get_subject ===================== -/

/-- Fuel-indexed scanner behind `stripTags`; the fuel is an upper bound on
the remaining length, so it never runs out at the use site. -/
def stripTagsAux : Nat → PyStr → PyStr
  | 0, _ => []
  | _ + 1, [] => []
  | fuel + 1, c :: rest =>
    if c = '<' then
      let inner := rest.takeWhile (fun x => x ≠ '>')
      if inner.isEmpty || inner.length = rest.length then
        '<' :: stripTagsAux fuel rest
      else stripTagsAux fuel (rest.drop (inner.length + 1))
    else c :: stripTagsAux fuel rest

/-- Models `re.sub(r'<[^>]+>', '', s)`: delete every maximal `<...>` span
holding at least one non-`>` character; a `<` that heads no such span is
kept. -/
def stripTags (s : PyStr) : PyStr := stripTagsAux s.length s

/-- The literal scanned for by the HTML subject regex
`<span class="subject">([^<]+)</span>`. -/
def subjectSpanOpen : PyStr := pyStr "<span class=\"subject\">"

/-- Models `re.search(r'<span class=\"subject\">([^<]+)</span>', html)` and
`match.group(1)`: at each position, after the opening literal a nonempty
run of non-`<` characters must be followed by the closing literal. -/
def findSubjectSpan : PyStr → Option PyStr
  | [] => none
  | s@(_ :: rest) =>
    if subjectSpanOpen.isPrefixOf s then
      let after := s.drop subjectSpanOpen.length
      let cap := after.takeWhile (fun c => c ≠ '<')
      if !cap.isEmpty && (pyStr "</span>").isPrefixOf (after.drop cap.length) then
        some cap
      else findSubjectSpan rest
    else findSubjectSpan rest
termination_by s => s.length

/-- Models `ThreadParser.get_subject` (thread_parser.py lines 71-120) given
the two fetch outcomes.  `unesc` is the black-box `html.unescape`.  The JSON
path prefers the first post's `sub` (entity-decoded, sanitized, NOT
truncated); else its `com` is tag-stripped, entity-decoded, truncated to 50
characters with an ellipsis marker when longer, and sanitized.  When the
JSON document is falsy or the first post carries neither key, the HTML
fallback scrapes the subject span; `none` when that also fails. -/
def getSubject (unesc : PyStr → PyStr) (api : Option ThreadJson)
    (page : Except AppError PyStr) : Option PyStr :=
  let htmlFallback : Option PyStr :=
    match page with
    | .ok body => (findSubjectSpan body).map (fun cap => sanitize_filename (unesc cap))
    | .error _ => none
  match api with
  | some j =>
    match j.posts with
    | [] => htmlFallback
    | op :: _ =>
      match op.sub with
      | some sub => some (sanitize_filename (unesc sub))
      | none =>
        match op.com with
        | some com =>
          let c2 := unesc (stripTags com)
          let c3 := if 50 < c2.length then pyStrip (c2.take 50) ++ pyStr "..."
                    else c2
          some (sanitize_filename c3)
        | none => htmlFallback
  | none => htmlFallback

/-- One `watch` iteration in the concrete 429 scenario: JSON API
unavailable, page GET returning HTTP 429, default configuration. -/
def rateLimitedStep (ws : WatchState) : WatchState :=
  (watchIteration cfgDefault (pyStr "g") (pyStr "downloads/g/123") none
    (fun _ => none)
    (HTTPClient.fetch (pyStr "https://boards.4chan.org/g/thread/123")
      (.httpErr 429 []))
    (fun _ => []) (fun _ => []) (fun _ => none) ws).1

/- ===================== theorems ===================== -/

/-- Any member of the desired set starts with `http`. -/
lemma mem_loadQueue_startsWith {s : PyStr} {lines : List PyStr}
    (hs : s ∈ loadQueue lines) : (pyStr "http").isPrefixOf s = true := by
  unfold loadQueue at hs
  rw [List.mem_toFinset, List.mem_filter] at hs
  have := hs.2
  rw [Bool.and_eq_true] at this
  exact this.1

/-- A string cannot start with both `http` and `-`. -/
lemma not_http_and_dash {s : PyStr} (h1 : (pyStr "http").isPrefixOf s = true)
    (h2 : (pyStr "-").isPrefixOf s = true) : False := by
  rw [List.isPrefixOf_iff_prefix] at h1 h2
  obtain ⟨t1, ht1⟩ := h1
  obtain ⟨t2, ht2⟩ := h2
  have hh : s.head? = some 'h' := by rw [← ht1]; rfl
  have hd : s.head? = some '-' := by rw [← ht2]; rfl
  rw [hh] at hd
  simp at hd

/-- C6: a queue-file line prefixed with the disable sigil `-` is never
returned by `load_queue` as a desired link, and hence no reconciliation pass
of `ProcessManager.run` calls `start_watcher` for it: once disabled, the
line stays out of the started set, whatever is currently running. -/
theorem disabled_line_never_started (lines : List PyStr) (line : PyStr)
    (hdis : (pyStr "-").isPrefixOf (pyStrip line) = true) :
    pyStrip line ∉ loadQueue lines ∧
    ∀ running : Finset PyStr,
      pyStrip line ∉ startedLinks (loadQueue lines) running := by
  constructor
  · intro hmem
    exact not_http_and_dash (mem_loadQueue_startsWith hmem) hdis
  · intro running hmem
    rw [startedLinks, Finset.mem_filter] at hmem
    exact not_http_and_dash (mem_loadQueue_startsWith hmem.1) hdis

/-- Witness for C6 at a concrete disabled line. -/
theorem disabled_line_never_started_witness :
    pyStrip (pyStr " -https://boards.4chan.org/g/thread/123 ") ∉
      loadQueue [pyStr "https://a", pyStr " -https://boards.4chan.org/g/thread/123 "] := by
  exact (disabled_line_never_started _ _ (by decide)).1

/-- C7: with the store failing (locked or unreadable database), every
`HashDB` operation returns its fallback instead of propagating: reads give
`None`/`False`/the empty set/`0`, and writes log and leave the table
unchanged. -/
theorem hashdb_swallows_storage_failures (db : DB) (h p t : PyStr)
    (now mtime size : Int) :
    HashDB.get_path true db h = none ∧
    HashDB.get_file_metadata true db p = none ∧
    HashDB.has_hash true db h = false ∧
    HashDB.get_thread_hashes true db t = ∅ ∧
    HashDB.count_hashes true db = 0 ∧
    HashDB.insert true db h p t now mtime size = db ∧
    HashDB.upsert true db h p t now mtime size = db ∧
    HashDB.delete_file_metadata true db p = db :=
  ⟨rfl, rfl, rfl, rfl, rfl, rfl, rfl, rfl⟩

/-- C5 (refuting evaluation): `HTTPClient.fetch` classifies an HTTP 429 into
the same message-only `HTTPError` signal as a transient HTTP 503 — the
exception classes of exceptions.py carry no `code` attribute and include no
rate-limited class, so by signal kind a caller cannot tell 429 from any
other non-404 failure; only 404 gets a distinct class. -/
theorem fetch_429_same_signal_as_transient :
    ∃ e1 e2 e3 : AppError,
      HTTPClient.fetch (pyStr "https://boards.4chan.org/g/thread/123")
        (.httpErr 429 []) = .error e1 ∧
      HTTPClient.fetch (pyStr "https://boards.4chan.org/g/thread/123")
        (.httpErr 503 []) = .error e2 ∧
      HTTPClient.fetch (pyStr "https://boards.4chan.org/g/thread/123")
        (.httpErr 404 []) = .error e3 ∧
      e1.kind = .http ∧ e2.kind = .http ∧ e1.kind = e2.kind ∧
      e3.kind = .notFound := by
  exact ⟨_, _, _, rfl, rfl, rfl, rfl, rfl, rfl, rfl⟩

/-- Splitting never yields the empty list. -/
lemma splitOnChar_ne_nil (sep : Char) (s : PyStr) : splitOnChar sep s ≠ [] := by
  induction s with
  | nil => simp [splitOnChar]
  | cons c rest ih =>
    simp only [splitOnChar]
    cases hsplit : splitOnChar sep rest with
    | nil => simp
    | cons p ps =>
      by_cases hc : c = sep <;> simp [hc]

/-- Splitting a string free of the separator yields the singleton. -/
lemma splitOnChar_not_mem (sep : Char) (s : PyStr) (h : sep ∉ s) :
    splitOnChar sep s = [s] := by
  induction s with
  | nil => rfl
  | cons c rest ih =>
    have hc : ¬c = sep := fun he => h (he ▸ List.mem_cons_self c rest)
    have hrest : sep ∉ rest := fun hm => h (List.mem_cons_of_mem _ hm)
    simp only [splitOnChar, ih hrest, hc, if_false]

/-- The part before the first separator is the head of the split. -/
lemma splitOnChar_append_sep (sep : Char) (a b : PyStr) (h : sep ∉ a) :
    splitOnChar sep (a ++ sep :: b) = a :: splitOnChar sep b := by
  induction a with
  | nil =>
    simp only [List.nil_append, splitOnChar]
    cases hsplit : splitOnChar sep b with
    | nil => exact absurd hsplit (splitOnChar_ne_nil sep b)
    | cons p ps => simp
  | cons c rest ih =>
    have hc : ¬c = sep := fun he => h (he ▸ List.mem_cons_self c rest)
    have hrest : sep ∉ rest := fun hm => h (List.mem_cons_of_mem _ hm)
    simp only [List.cons_append, splitOnChar, List.append_eq]
    rw [ih hrest]
    simp [hc]

/-- C9: `ThreadURL.parse` is total by construction, strips the `#` fragment
before splitting, and when the URL has fewer than the expected number of
`/`-separated segments it yields the empty string for `board` (segment 3)
and `thread_id` (segment 5) and `None` for `slug` (segment 6) instead of
failing. -/
theorem threadURL_parse_spec (a b url : PyStr) (ha : '#' ∉ a) :
    ThreadURL.parse (a ++ '#' :: b) = ThreadURL.parse a ∧
    ((splitOnChar '/' (ThreadURL.parse url).url).length ≤ 3 →
      (ThreadURL.parse url).board = []) ∧
    ((splitOnChar '/' (ThreadURL.parse url).url).length ≤ 5 →
      (ThreadURL.parse url).thread_id = []) ∧
    ((splitOnChar '/' (ThreadURL.parse url).url).length ≤ 6 →
      (ThreadURL.parse url).slug = none) := by
  refine ⟨?_, ?_, ?_, ?_⟩
  · unfold ThreadURL.parse
    rw [splitOnChar_append_sep '#' a b ha, splitOnChar_not_mem '#' a ha]
    rfl
  · intro hlen
    show (splitOnChar '/' ((splitOnChar '#' url).headD [])).getD 3 [] = []
    exact List.getD_eq_default _ _ hlen
  · intro hlen
    show (splitOnChar '/' ((splitOnChar '#' url).headD [])).getD 5 [] = []
    exact List.getD_eq_default _ _ hlen
  · intro hlen
    have hlen6 : (splitOnChar '/' ((splitOnChar '#' url).headD [])).length ≤ 6 := hlen
    show (if 6 < (splitOnChar '/' ((splitOnChar '#' url).headD [])).length then _
          else none) = none
    rw [if_neg (by omega)]

/-- Witness for C9: a concrete URL with a fragment, and a concrete URL with
too few segments. -/
theorem threadURL_parse_spec_witness :
    ThreadURL.parse (pyStr "https://boards.4chan.org/g" ++ '#' :: pyStr "p1") =
      ThreadURL.parse (pyStr "https://boards.4chan.org/g") ∧
    (ThreadURL.parse (pyStr "xy")).board = [] ∧
    (ThreadURL.parse (pyStr "xy")).thread_id = [] ∧
    (ThreadURL.parse (pyStr "xy")).slug = none := by
  have h := threadURL_parse_spec (pyStr "https://boards.4chan.org/g") (pyStr "p1")
    (pyStr "xy") (by decide)
  exact ⟨h.1, h.2.1 (by decide), h.2.2.1 (by decide), h.2.2.2 (by decide)⟩

/-- Bool-level and Prop-level forms of the `_disable_link` line condition
agree. -/
lemma disableCond_iff (l link : PyStr) :
    ((pyStrip l = link : Bool) && !(pyStr "-").isPrefixOf l) = true ↔
    (pyStrip l = link ∧ (pyStr "-").isPrefixOf l = false) := by
  rw [Bool.and_eq_true, decide_eq_true_eq, Bool.not_eq_true']

/-- C10: `_disable_link` prefixes `-` to exactly the lines whose stripped
content equals the link and which do not already start with `-`; every other
line is written back unchanged, and when no line matches the file is not
rewritten at all. -/
theorem disable_link_spec (lines : List PyStr) (link : PyStr) :
    (disableLink lines link = none ↔
      ∀ l ∈ lines, ¬(pyStrip l = link ∧ (pyStr "-").isPrefixOf l = false)) ∧
    ∀ out, disableLink lines link = some out →
      out.length = lines.length ∧
      ∀ i, i < lines.length →
        out.getD i [] =
          if pyStrip (lines.getD i []) = link ∧
             (pyStr "-").isPrefixOf (lines.getD i []) = false
          then '-' :: lines.getD i [] else lines.getD i [] := by
  constructor
  · unfold disableLink
    by_cases hany :
        lines.any (fun l => (pyStrip l = link : Bool) && !(pyStr "-").isPrefixOf l) = true
    · rw [if_pos hany]
      simp only [reduceCtorEq, false_iff]
      rw [List.any_eq_true] at hany
      obtain ⟨l, hl, hcond⟩ := hany
      intro hall
      exact hall l hl ((disableCond_iff l link).mp hcond)
    · rw [if_neg hany]
      simp only [true_iff]
      intro l hl hcond
      exact hany (List.any_eq_true.mpr ⟨l, hl, (disableCond_iff l link).mpr hcond⟩)
  · intro out hout
    unfold disableLink at hout
    by_cases hany :
        lines.any (fun l => (pyStrip l = link : Bool) && !(pyStr "-").isPrefixOf l) = true
    · rw [if_pos hany] at hout
      obtain rfl : _ = out := Option.some_injective _ hout
      refine ⟨List.length_map _ _, ?_⟩
      intro i hi
      have hmap : (lines.map (fun l =>
          if (pyStrip l = link : Bool) && !(pyStr "-").isPrefixOf l then '-' :: l
          else l)).getD i [] =
          (fun l => if (pyStrip l = link : Bool) && !(pyStr "-").isPrefixOf l
            then '-' :: l else l) (lines.getD i []) := by
        rw [List.getD_eq_getElem _ _ (by simpa using hi),
            List.getD_eq_getElem _ _ hi, List.getElem_map]
      rw [hmap]
      beta_reduce
      by_cases hcond : pyStrip (lines.getD i []) = link ∧
          (pyStr "-").isPrefixOf (lines.getD i []) = false
      · rw [if_pos hcond, if_pos ((disableCond_iff _ link).mpr hcond)]
      · rw [if_neg hcond,
            if_neg (fun hb => hcond ((disableCond_iff _ link).mp hb))]
    · rw [if_neg hany] at hout
      exact absurd hout (by simp)

/-- Witness for C10: one matching line gets the sigil, the others are
unchanged, at concrete queue content. -/
theorem disable_link_spec_witness :
    ((disableLink [pyStr "https://a", pyStr " https://b ", pyStr "-https://b"]
        (pyStr "https://b")).getD []).getD 1 [] = pyStr "- https://b " ∧
    disableLink [pyStr "https://x"] (pyStr "https://y") = none := by
  refine ⟨?_, (disable_link_spec [pyStr "https://x"] (pyStr "https://y")).1.mpr
    (by decide)⟩
  have h := ((disable_link_spec
      [pyStr "https://a", pyStr " https://b ", pyStr "-https://b"]
      (pyStr "https://b")).2
      [pyStr "https://a", '-' :: pyStr " https://b ", pyStr "-https://b"]
      (by decide)).2 1 (by decide)
  revert h
  decide

/-- C1: in every poll iteration, when a file entry carries a non-empty
content hash (the decoded API md5) and that hash is already present in the
global `hashes` table (under any thread) or in the watcher's in-memory
per-thread set, `_process_file_entry` returns before
`self.http_client.fetch(link)`: the byte-fetch is not performed. -/
theorem api_md5_hit_skips_fetch (cfg : Config) (dir : PyStr) (st : WState)
    (t : EnumTuple) (idx : Nat) (titles : List PyStr)
    (fetchRes : PyStr → Option PyStr) (count : Nat) (h : PyStr)
    (hfield : tupleField t 2 = some h) (hne : h ≠ [])
    (hhit : (dbGetPath st.db h).isSome = true ∨ h ∈ st.md5_hashes) :
    (processFileEntry cfg dir st t idx titles fetchRes count).fetched = false := by
  unfold processFileEntry
  cases hpath : determineFilePath cfg dir t idx titles with
  | none => rfl
  | some imgPath =>
    simp only [hfield]
    by_cases hex : imgPath ∈ st.fs
    · simp [hex]
    · have htr : truthy (some h) = true := by
        simp only [truthy, Bool.not_eq_true']
        exact (Bool.not_eq_true _).mp
          (fun hE => hne (List.isEmpty_iff.mp hE))
      simp only [hex, if_false, htr, if_true, Option.getD_some]
      rcases hhit with hdb | hmem
      · simp [hdb]
      · by_cases hdb : (dbGetPath st.db h).isSome = true
        · simp [hdb]
        · simp [hdb, hmem]

/-- Witness for C1: a concrete entry whose API hash is already in the table
under another thread. -/
theorem api_md5_hit_skips_fetch_witness :
    (processFileEntry cfgDefault (pyStr "downloads/g/123")
      { md5_hashes := ∅
        db := [{ md5 := pyStr "d1", path := pyStr "downloads/wg/9/1.jpg"
                 thread := pyStr "9", ts := 0, mtime := 0, size := 0 }]
        fs := ∅ }
      [some (pyStr "https://i.4cdn.org/g/1.jpg"), some (pyStr "1.jpg"),
       some (pyStr "d1")]
      0 [] (fun _ => none) 1).fetched = false := by
  exact api_md5_hit_skips_fetch _ _ _ _ _ _ _ _ (pyStr "d1") (by decide)
    (by decide) (Or.inl (by decide))

/-- C2 (failing evaluation): starting from an empty index, processing a new
entry with digest `d1` performs the byte-fetch and writes the file to the
computed destination path, but the `hashes` table afterwards does NOT map
`d1` to that path: the save step's call
`self.db.insert(data_hash, img_path, self.thread_id)` omits the required
`mtime` and `size` parameters of `HashDB.insert`, the resulting `TypeError`
is caught by the per-entry download handler, and the index write (and the
count increment) never happen. -/
theorem save_step_loses_index_row :
    (processFileEntry cfgDefault (pyStr "downloads/g/123")
        { md5_hashes := ∅, db := [], fs := ∅ }
        [some (pyStr "https://i.4cdn.org/g/123.jpg"), some (pyStr "123.jpg"),
         some (pyStr "d1"), some (pyStr "ZDE="), none, some (pyStr "123"),
         some (pyStr ".jpg")]
        0 [] (fun _ => some (pyStr "d1")) 1).fetched = true ∧
    pyStr "downloads/g/123/123.jpg" ∈
      (processFileEntry cfgDefault (pyStr "downloads/g/123")
        { md5_hashes := ∅, db := [], fs := ∅ }
        [some (pyStr "https://i.4cdn.org/g/123.jpg"), some (pyStr "123.jpg"),
         some (pyStr "d1"), some (pyStr "ZDE="), none, some (pyStr "123"),
         some (pyStr ".jpg")]
        0 [] (fun _ => some (pyStr "d1")) 1).state.fs ∧
    dbGetPath (processFileEntry cfgDefault (pyStr "downloads/g/123")
        { md5_hashes := ∅, db := [], fs := ∅ }
        [some (pyStr "https://i.4cdn.org/g/123.jpg"), some (pyStr "123.jpg"),
         some (pyStr "d1"), some (pyStr "ZDE="), none, some (pyStr "123"),
         some (pyStr ".jpg")]
        0 [] (fun _ => some (pyStr "d1")) 1).state.db (pyStr "d1") = none ∧
    (processFileEntry cfgDefault (pyStr "downloads/g/123")
        { md5_hashes := ∅, db := [], fs := ∅ }
        [some (pyStr "https://i.4cdn.org/g/123.jpg"), some (pyStr "123.jpg"),
         some (pyStr "d1"), some (pyStr "ZDE="), none, some (pyStr "123"),
         some (pyStr ".jpg")]
        0 [] (fun _ => some (pyStr "d1")) 1).count = 1 := by
  decide

/-- C3 (failing evaluation): a poll iteration whose JSON API is unavailable
and whose page fetch returns HTTP 429 leaves the watcher's throttle
unchanged — also after three consecutive such iterations — instead of
increasing it by backoff per 429 and retrying: `_fetch_thread_data` catches
the `HTTPError` internally and returns `([], [])`, so the 429 handler of
`ThreadWatcher.watch` never runs (and `inb4404.exceptions.HTTPError` carries
no `code` attribute for it to test in any case); the iteration completes as
if the thread listed no files. -/
theorem rate_limited_iteration_no_backoff :
    rateLimitedStep ⟨1/2, ∅, [], ∅⟩ = ⟨1/2, ∅, [], ∅⟩ ∧
    (rateLimitedStep^[3] ⟨1/2, ∅, [], ∅⟩).throttle = 1/2 ∧
    ¬(rateLimitedStep^[3] ⟨1/2, ∅, [], ∅⟩).throttle
        = 1/2 + 3 * cfgDefault.backoff ∧
    (watchIteration cfgDefault (pyStr "g") (pyStr "downloads/g/123") none
      (fun _ => none)
      (HTTPClient.fetch (pyStr "https://boards.4chan.org/g/thread/123")
        (.httpErr 429 []))
      (fun _ => []) (fun _ => []) (fun _ => none) ⟨1/2, ∅, [], ∅⟩).2 = 0 := by
  refine ⟨rfl, rfl, ?_, rfl⟩
  show ¬(1/2 : ℚ) = 1/2 + 3 * cfgDefault.backoff
  norm_num [cfgDefault]

/-- Stripping whitespace from a string ending in the ellipsis marker keeps
the marker as a suffix. -/
lemma pyStrip_append_dots (z : PyStr) :
    ∃ w, pyStrip (z ++ pyStr "...") = w ++ pyStr "..." := by
  unfold pyStrip
  rw [List.dropWhile_append]
  by_cases hz : (z.dropWhile isPySpace).isEmpty = true
  · rw [if_pos hz]
    exact ⟨[], by decide⟩
  · rw [if_neg hz, List.reverse_append]
    have hstep : List.dropWhile isPySpace
        ((pyStr "...").reverse ++ (z.dropWhile isPySpace).reverse) =
        (pyStr "...").reverse ++ (z.dropWhile isPySpace).reverse := by
      rw [List.dropWhile_append]
      rw [if_neg (by decide)]
      rw [show List.dropWhile isPySpace (pyStr "...").reverse =
        (pyStr "...").reverse from by decide]
    rw [hstep, List.reverse_append, List.reverse_reverse, List.reverse_reverse]
    exact ⟨z.dropWhile isPySpace, rfl⟩

/-- Sanitizing a string ending in the ellipsis marker keeps the marker as a
suffix: the kept-character filter preserves dots and the result is
nonempty. -/
lemma sanitize_filename_ellipsis (z : PyStr) :
    ∃ w, sanitize_filename (z ++ pyStr "...") = w ++ pyStr "..." := by
  obtain ⟨w1, hw1⟩ := pyStrip_append_dots z
  unfold sanitize_filename
  rw [hw1, List.filter_append, List.map_append]
  rw [show (List.filter sanitizeKeep (pyStr "...")).map sanitizeMap =
    pyStr "..." from by decide]
  have hne : ¬((List.filter sanitizeKeep w1).map sanitizeMap ++
      pyStr "...").isEmpty = true := by
    rw [List.isEmpty_iff]
    simp [pyStr]
  rw [if_neg hne]
  exact ⟨_, rfl⟩

/-- C8 (refuting evaluation): a thread whose first post carries a `sub`
field of 51 characters is returned by `get_subject` without truncation and
without any ellipsis marker — the 50-character truncation applies only to
the `com` comment-snippet fallback. -/
theorem subject_over_50_untruncated :
    getSubject id
      (some { posts := [{ tim := none, ext := none, md5 := none,
                          filename := none,
                          sub := some (List.replicate 51 'a'),
                          com := none }] })
      (.error (.httpError [])) = some (List.replicate 51 'a') ∧
    50 < (List.replicate 51 'a' : PyStr).length ∧
    '.' ∉ (List.replicate 51 'a' : PyStr) := by
  decide

/-- C8 as amended: the ellipsis-and-truncation behaviour holds on the
comment-snippet path — when the first post has no `sub` and its `com`,
after tag stripping and entity decoding, exceeds 50 characters,
`get_subject` returns the sanitized 50-character truncation, which still
carries the ellipsis marker as a suffix. -/
theorem comment_snippet_truncated (unesc : PyStr → PyStr) (op : Post)
    (rest : List Post) (page : Except AppError PyStr) (c : PyStr)
    (hsub : op.sub = none) (hcom : op.com = some c)
    (hlen : 50 < (unesc (stripTags c)).length) :
    getSubject unesc (some ⟨op :: rest⟩) page =
      some (sanitize_filename
        (pyStrip ((unesc (stripTags c)).take 50) ++ pyStr "...")) ∧
    ∃ w, getSubject unesc (some ⟨op :: rest⟩) page =
      some (w ++ pyStr "...") := by
  have hmain : getSubject unesc (some ⟨op :: rest⟩) page =
      some (sanitize_filename
        (pyStrip ((unesc (stripTags c)).take 50) ++ pyStr "...")) := by
    unfold getSubject
    simp only [hsub, hcom]
    rw [if_pos hlen]
  refine ⟨hmain, ?_⟩
  obtain ⟨w, hw⟩ := sanitize_filename_ellipsis
    (pyStrip ((unesc (stripTags c)).take 50))
  exact ⟨w, by rw [hmain, hw]⟩

/-- Witness for the amended C8 at a concrete 51-character comment. -/
theorem comment_snippet_truncated_witness :
    getSubject id
      (some { posts := [{ tim := none, ext := none, md5 := none,
                          filename := none, sub := none,
                          com := some (List.replicate 51 'b') }] })
      (.error (.httpError [])) =
      some (sanitize_filename
        (pyStrip ((id (stripTags (List.replicate 51 'b'))).take 50) ++
          pyStr "...")) ∧
    ∃ w, getSubject id
      (some { posts := [{ tim := none, ext := none, md5 := none,
                          filename := none, sub := none,
                          com := some (List.replicate 51 'b') }] })
      (.error (.httpError [])) = some (w ++ pyStr "...") := by
  exact comment_snippet_truncated id _ [] _ (List.replicate 51 'b') rfl rfl
    (by decide)

/-- After an upsert the table maps the upserted hash to the new path. -/
lemma dbGetPath_upsert_self (db : DB) (h p t : PyStr) (ts mt sz : Int) :
    dbGetPath (dbUpsert db h p t ts mt sz) h = some p := by
  unfold dbGetPath dbUpsert
  rw [List.find?_append]
  have hleft : (db.filter (fun r => !(r.md5 = h : Bool))).find?
      (fun r => (r.md5 = h : Bool)) = none := by
    rw [List.find?_eq_none]
    intro r hr
    have h2 := (List.mem_filter.mp hr).2
    simpa using h2
  rw [hleft]
  simp [List.find?_cons]

/-- Filtering away the rows of one key does not change the first hit for a
different key. -/
lemma find?_filter_ne (l : List DBRow) (h h2 : PyStr) (hne : h2 ≠ h) :
    List.find? (fun r => (r.md5 = h2 : Bool))
      (l.filter (fun r => !(r.md5 = h : Bool))) =
    List.find? (fun r => (r.md5 = h2 : Bool)) l := by
  induction l with
  | nil => rfl
  | cons r rest ih =>
    rw [List.filter_cons]
    by_cases hr : r.md5 = h
    · have hr2 : decide (r.md5 = h2) = false := by
        simp only [decide_eq_false_iff_not]
        intro he
        exact hne (he ▸ hr)
      rw [if_neg (by simp [hr])]
      rw [List.find?_cons, hr2]
      exact ih
    · rw [if_pos (by simp [hr])]
      rw [List.find?_cons, List.find?_cons]
      cases hd : decide (r.md5 = h2) with
      | false => exact ih
      | true => rfl

/-- An upsert leaves the lookup of every other hash unchanged. -/
lemma dbGetPath_upsert_ne (db : DB) (h p t : PyStr) (ts mt sz : Int)
    (h2 : PyStr) (hne : h2 ≠ h) :
    dbGetPath (dbUpsert db h p t ts mt sz) h2 = dbGetPath db h2 := by
  unfold dbGetPath dbUpsert
  rw [List.find?_append, find?_filter_ne db h h2 hne]
  have hnew : List.find? (fun (r : DBRow) => (r.md5 = h2 : Bool))
      ([⟨h, p, t, ts, mt, sz⟩] : List DBRow) = none := by
    rw [List.find?_eq_none]
    intro x hx
    rw [List.mem_singleton] at hx
    subst hx
    simp [Ne.symm hne]
  rw [hnew, Option.or_none]

/-- After the conditional repair the table maps the hash to the kept path. -/
lemma groupDb_self (root : PyStr) (now : Int) (db : DB) (h : PyStr)
    (kept : FileStat) :
    dbGetPath (groupDb root now db h kept) h = some kept.path := by
  unfold groupDb
  by_cases hc : dbGetPath db h ≠ some kept.path
  · rw [if_pos hc]
    exact dbGetPath_upsert_self ..
  · rw [if_neg hc]
    exact not_ne_iff.mp hc

/-- The conditional repair leaves other hashes' lookups unchanged. -/
lemma groupDb_ne (root : PyStr) (now : Int) (db : DB) (h : PyStr)
    (kept : FileStat) (h2 : PyStr) (hne : h2 ≠ h) :
    dbGetPath (groupDb root now db h kept) h2 = dbGetPath db h2 := by
  unfold groupDb
  by_cases hc : dbGetPath db h ≠ some kept.path
  · rw [if_pos hc]
    exact dbGetPath_upsert_ne _ _ _ _ _ _ _ _ hne
  · rw [if_neg hc]

/-- With deletions succeeding, the loop deletes exactly the duplicate paths
and counts them. -/
lemma removalFold_aux (dups : List FileStat) (fs : Finset PyStr) (k : Nat) :
    (List.foldl (removeStep (fun _ => false)) (fs, k) dups).2 =
      k + dups.length ∧
    ∀ p : PyStr, p ∈ (List.foldl (removeStep (fun _ => false)) (fs, k) dups).1 ↔
      p ∈ fs ∧ p ∉ dups.map FileStat.path := by
  induction dups generalizing fs k with
  | nil => simp
  | cons d rest ih =>
    rw [List.foldl_cons]
    rw [show removeStep (fun _ => false) (fs, k) d = (fs.erase d.path, k + 1)
      from rfl]
    constructor
    · rw [(ih (fs.erase d.path) (k + 1)).1]
      simp only [List.length_cons]
      omega
    · intro p
      rw [(ih (fs.erase d.path) (k + 1)).2 p, Finset.mem_erase]
      simp only [List.map_cons, List.mem_cons]
      tauto

/-- Count part of `removalFold` with deletions succeeding. -/
lemma removalFold_count (dups : List FileStat) (fs : Finset PyStr) :
    (removalFold (fun _ => false) dups fs).2 = dups.length :=
  by simpa using (removalFold_aux dups fs 0).1

/-- Membership part of `removalFold` with deletions succeeding. -/
lemma removalFold_mem (dups : List FileStat) (fs : Finset PyStr) (p : PyStr) :
    p ∈ (removalFold (fun _ => false) dups fs).1 ↔
      p ∈ fs ∧ p ∉ dups.map FileStat.path :=
  (removalFold_aux dups fs 0).2 p

/-- The sort used by the deduplicator is a permutation of the group. -/
lemma sortByMtime_perm (g : List FileStat) : (sortByMtime g).Perm g :=
  List.mergeSort_perm g _

/-- The sort used by the deduplicator is sorted by modification time. -/
lemma sortByMtime_sorted (g : List FileStat) :
    List.Pairwise (fun a b => decide (a.mtime ≤ b.mtime) = true)
      (sortByMtime g) := by
  refine List.sorted_mergeSort ?_ ?_ g
  · intro a b c hab hbc
    simp only [decide_eq_true_eq] at hab hbc ⊢
    exact le_trans hab hbc
  · intro a b
    simp only [Bool.or_eq_true, decide_eq_true_eq]
    exact Int.le_total a.mtime b.mtime

/-- Full behaviour of one group of `remove_duplicates` when every deletion
succeeds: the deleted-count is the group size minus one, lookups of other
hashes and membership of other paths are untouched, the file set only
shrinks, and for a group with duplicates the uniquely-oldest entry survives,
the others are deleted, and the table maps the hash to the survivor. -/
lemma processGroup_spec (root : PyStr) (now : Int) (st : DState) (h : PyStr)
    (grp : List FileStat) (hne : grp ≠ [])
    (hmt : (grp.map FileStat.mtime).Nodup)
    (hpaths : (grp.map FileStat.path).Nodup)
    (hfs : ∀ e ∈ grp, e.path ∈ st.fs) :
    ∃ st1, processGroup root (fun _ => false) now st h grp
        = some (st1, grp.length - 1) ∧
      (∀ h2, h2 ≠ h → dbGetPath st1.db h2 = dbGetPath st.db h2) ∧
      (∀ p, p ∉ grp.map FileStat.path → (p ∈ st1.fs ↔ p ∈ st.fs)) ∧
      (∀ p, p ∈ st1.fs → p ∈ st.fs) ∧
      (1 < grp.length →
        ∃ kept, kept ∈ grp ∧
          (∀ e ∈ grp, e ≠ kept → kept.mtime < e.mtime) ∧
          dbGetPath st1.db h = some kept.path ∧ kept.path ∈ st1.fs ∧
          ∀ e ∈ grp, e ≠ kept → e.path ∉ st1.fs) := by
  by_cases hbig : 1 < grp.length
  · obtain ⟨kept, dups, hsort⟩ :
        ∃ kept dups, sortByMtime grp = kept :: dups := by
      cases hs : sortByMtime grp with
      | nil =>
        have hlen := (sortByMtime_perm grp).length_eq
        rw [hs] at hlen
        simp at hlen
        omega
      | cons a l => exact ⟨a, l, rfl⟩
    have hperm : (kept :: dups).Perm grp := hsort ▸ sortByMtime_perm grp
    have hkept_mem : kept ∈ grp :=
      hperm.mem_iff.mp (List.mem_cons_self kept dups)
    have hmem_dups : ∀ e ∈ grp, e ≠ kept → e ∈ dups := by
      intro e he hene
      rcases List.mem_cons.mp (hperm.mem_iff.mpr he) with h1 | h1
      · exact absurd h1 hene
      · exact h1
    have hsorted := sortByMtime_sorted grp
    rw [hsort, List.pairwise_cons] at hsorted
    have hle : ∀ e ∈ dups, kept.mtime ≤ e.mtime := by
      intro e he
      have := hsorted.1 e he
      simpa using this
    have hmtne : ∀ e ∈ grp, e ≠ kept → e.mtime ≠ kept.mtime := by
      have hpw : List.Pairwise (fun a b : FileStat => a.mtime ≠ b.mtime) grp :=
        List.pairwise_map.mp hmt
      intro e he hene
      exact hpw.forall (fun a b hab => hab.symm) he hkept_mem hene
    have hmin : ∀ e ∈ grp, e ≠ kept → kept.mtime < e.mtime := by
      intro e he hene
      exact lt_of_le_of_ne (hle e (hmem_dups e he hene))
        (fun hEq => hmtne e he hene hEq.symm)
    have hpaths_sorted : (kept.path :: dups.map FileStat.path).Nodup := by
      have := (hperm.map FileStat.path).nodup_iff.mpr hpaths
      simpa using this
    have hkept_not_dup : kept.path ∉ dups.map FileStat.path :=
      (List.nodup_cons.mp hpaths_sorted).1
    have hdups_sub : ∀ e ∈ dups, e ∈ grp := by
      intro e he
      exact hperm.mem_iff.mp (List.mem_cons_of_mem kept he)
    refine ⟨⟨groupDb root now st.db h kept,
      (removalFold (fun _ => false) dups st.fs).1⟩, ?_, ?_, ?_, ?_, ?_⟩
    · unfold processGroup
      rw [if_pos hbig, hsort]
      dsimp only
      rw [removalFold_count]
      have : dups.length = grp.length - 1 := by
        have := hperm.length_eq
        simp at this
        omega
      rw [this]
    · intro h2 hne2
      exact groupDb_ne root now st.db h kept h2 hne2
    · intro p hp
      rw [removalFold_mem]
      have : p ∉ dups.map FileStat.path := by
        intro hmem
        obtain ⟨e, he, hpe⟩ := List.mem_map.mp hmem
        exact hp (List.mem_map.mpr ⟨e, hdups_sub e he, hpe⟩)
      tauto
    · intro p hp
      exact ((removalFold_mem dups st.fs p).mp hp).1
    · intro _
      refine ⟨kept, hkept_mem, hmin, groupDb_self .., ?_, ?_⟩
      · rw [removalFold_mem]
        exact ⟨hfs kept hkept_mem, hkept_not_dup⟩
      · intro e he hene
        rw [removalFold_mem]
        intro hcontra
        exact hcontra.2 (List.mem_map.mpr ⟨e, hmem_dups e he hene, rfl⟩)
  · match grp, hne with
    | [kept], _ =>
      refine ⟨⟨groupDb root now st.db h kept, st.fs⟩, ?_, ?_, ?_, ?_, ?_⟩
      · unfold processGroup
        rw [if_neg hbig]
        rfl
      · intro h2 hne2
        exact groupDb_ne root now st.db h kept h2 hne2
      · intro p _
        exact Iff.rfl
      · intro p hp
        exact hp
      · intro hcontra
        simp at hcontra
    | e1 :: e2 :: rest, _ =>
      exfalso
      simp at hbig

/-- C4: with every deletion succeeding, `remove_duplicates` applied to a
hash-keyed grouping (distinct hashes, globally distinct paths, nonempty
groups with distinct modification times, all files on disk) returns
`(kept_count, deleted_count) = (number of groups, sum over groups of
(size - 1))`; hashes and paths outside the map are untouched and the file
set only shrinks; and for every group with more than one path exactly the
entry with the earliest modification time remains on disk, every other path
of the group is deleted, and the table maps the hash to the survivor. -/
theorem remove_duplicates_spec (root : PyStr) (now : Int)
    (m : List (PyStr × List FileStat)) (st : DState)
    (hne : ∀ pr ∈ m, pr.2 ≠ [])
    (hkeys : (m.map Prod.fst).Nodup)
    (hpaths : (m.flatMap (fun pr => pr.2.map FileStat.path)).Nodup)
    (hmt : ∀ pr ∈ m, (pr.2.map FileStat.mtime).Nodup)
    (hfs : ∀ pr ∈ m, ∀ e ∈ pr.2, e.path ∈ st.fs) :
    ∃ st2, removeDuplicates root (fun _ => false) now st m =
        some (st2, m.length, (m.map (fun pr => pr.2.length - 1)).sum) ∧
      (∀ h2, h2 ∉ m.map Prod.fst → dbGetPath st2.db h2 = dbGetPath st.db h2) ∧
      (∀ p, p ∉ m.flatMap (fun pr => pr.2.map FileStat.path) →
        (p ∈ st2.fs ↔ p ∈ st.fs)) ∧
      (∀ p, p ∈ st2.fs → p ∈ st.fs) ∧
      ∀ pr ∈ m, 1 < pr.2.length →
        ∃ kept, kept ∈ pr.2 ∧
          (∀ e ∈ pr.2, e ≠ kept → kept.mtime < e.mtime) ∧
          dbGetPath st2.db pr.1 = some kept.path ∧ kept.path ∈ st2.fs ∧
          ∀ e ∈ pr.2, e ≠ kept → e.path ∉ st2.fs := by
  induction m generalizing st with
  | nil =>
    exact ⟨st, rfl, fun _ _ => rfl, fun _ _ => Iff.rfl, fun _ hp => hp,
      by simp⟩
  | cons pr0 rest ih =>
    obtain ⟨h, grp⟩ := pr0
    have hgrp_ne : grp ≠ [] := hne (h, grp) (List.mem_cons_self _ _)
    have hgrp_mt : (grp.map FileStat.mtime).Nodup :=
      hmt (h, grp) (List.mem_cons_self _ _)
    have hflat : ((h, grp) :: rest).flatMap
        (fun pr => pr.2.map FileStat.path) =
        grp.map FileStat.path ++
          rest.flatMap (fun pr => pr.2.map FileStat.path) := by
      simp
    rw [hflat] at hpaths
    obtain ⟨hgrp_paths, hrest_paths, hdisj⟩ := List.nodup_append.mp hpaths
    have hgrp_fs : ∀ e ∈ grp, e.path ∈ st.fs :=
      hfs (h, grp) (List.mem_cons_self _ _)
    obtain ⟨st1, hpg, hdbframe1, hfsframe1, hmono1, hmulti1⟩ :=
      processGroup_spec root now st h grp hgrp_ne hgrp_mt hgrp_paths hgrp_fs
    have hrest_fs : ∀ pr2 ∈ rest, ∀ e ∈ pr2.2, e.path ∈ st1.fs := by
      intro pr2 hpr2 e he
      have hin : e.path ∈ rest.flatMap (fun pr => pr.2.map FileStat.path) :=
        List.mem_flatMap.mpr ⟨pr2, hpr2, List.mem_map.mpr ⟨e, he, rfl⟩⟩
      have hnotgrp : e.path ∉ grp.map FileStat.path := fun hc => hdisj hc hin
      exact (hfsframe1 e.path hnotgrp).mpr
        (hfs pr2 (List.mem_cons_of_mem _ hpr2) e he)
    obtain ⟨st2, hrd, hdbframe2, hfsframe2, hmono2, hmulti2⟩ :=
      ih st1 (fun pr hpr => hne pr (List.mem_cons_of_mem _ hpr))
        (by
          have := hkeys
          rw [List.map_cons, List.nodup_cons] at this
          exact this.2)
        hrest_paths
        (fun pr hpr => hmt pr (List.mem_cons_of_mem _ hpr))
        hrest_fs
    have hkey_not : h ∉ rest.map Prod.fst := by
      have := hkeys
      rw [List.map_cons, List.nodup_cons] at this
      exact this.1
    refine ⟨st2, ?_, ?_, ?_, ?_, ?_⟩
    · show (match processGroup root (fun _ => false) now st h grp with
        | none => none
        | some (st1, del) =>
          match removeDuplicates root (fun _ => false) now st1 rest with
          | none => none
          | some (st2, kept, deleted) => some (st2, kept + 1, deleted + del))
        = _
      rw [hpg]
      dsimp only
      rw [hrd]
      dsimp only
      rw [List.length_cons, List.map_cons, List.sum_cons]
      simp only [Option.some.injEq, Prod.mk.injEq, true_and]
      omega
    · intro h2 hh2
      rw [List.map_cons, List.mem_cons] at hh2
      push_neg at hh2
      rw [hdbframe2 h2 hh2.2, hdbframe1 h2 hh2.1]
    · intro p hp
      rw [hflat, List.mem_append] at hp
      push_neg at hp
      exact (hfsframe2 p hp.2).trans (hfsframe1 p hp.1)
    · intro p hp
      exact hmono1 p (hmono2 p hp)
    · intro pr hpr hbig
      rcases List.mem_cons.mp hpr with heq | hpr'
      · subst heq
        obtain ⟨kept, hkm, hkmin, hkdb, hkfs, hkdel⟩ := hmulti1 hbig
        refine ⟨kept, hkm, hkmin, ?_, ?_, ?_⟩
        · rw [hdbframe2 _ hkey_not]
          exact hkdb
        · have hkg : kept.path ∈ grp.map FileStat.path :=
            List.mem_map.mpr ⟨kept, hkm, rfl⟩
          have hnot : kept.path ∉
              rest.flatMap (fun pr => pr.2.map FileStat.path) :=
            fun hc => hdisj hkg hc
          exact (hfsframe2 _ hnot).mpr hkfs
        · intro e he hene hc
          exact hkdel e he hene (hmono2 _ hc)
      · exact hmulti2 pr hpr' hbig

/-- Witness for C4: two identical-content files in different thread
directories, the older one (mtime 3) survives and exactly one file is
deleted. -/
theorem remove_duplicates_spec_witness :
    ∃ st2, removeDuplicates (pyStr "downloads") (fun _ => false) 100
        { db := []
          fs := {pyStr "downloads/g/1/a.jpg", pyStr "downloads/g/2/b.jpg"} }
        [(pyStr "d1", [⟨pyStr "downloads/g/1/a.jpg", 5, 10⟩,
                       ⟨pyStr "downloads/g/2/b.jpg", 3, 10⟩])] =
      some (st2, 1, 1) := by
  obtain ⟨st2, heq, -, -, -, -⟩ := remove_duplicates_spec (pyStr "downloads")
    100
    [(pyStr "d1", [⟨pyStr "downloads/g/1/a.jpg", 5, 10⟩,
                   ⟨pyStr "downloads/g/2/b.jpg", 3, 10⟩])]
    { db := []
      fs := {pyStr "downloads/g/1/a.jpg", pyStr "downloads/g/2/b.jpg"} }
    (by decide) (by decide) (by decide) (by decide) (by decide)
  exact ⟨st2, heq⟩
